import Mathlib

/-!
Verification development for the capture lifecycle controller in
oswatcher/capture.py.

The file shallowly embeds the controller:
* the property-graph store operated on through py2neo / Cypher
  (node creation, delete_all, push, and the SUBGRAPH_DELETE_OS query);
* the protocol driver (function protocol);
* the hook-configuration handling and the session coordinator
  (function capture_main), with the external collaborators (libvirt,
  the see sandbox, the hooks) represented by their observable behaviour;
* the ephemeral-context provisioner (QEMUDomainContextFactory.__init__).

Runs are modelled as a trace of observable events plus a final store and
an outcome.  External behaviour (provisioning success, hooks raising,
an operator interrupt, evidence nodes attached by hooks) is an input
of the model, so theorems quantify over it.
-/

/-! ## The graph store

A node of the property graph: its internal id, whether it carries the
OS label, and its name attribute (oswatcher.model.OS nodes are the OS
labelled ones; evidence nodes attached by hooks are unlabelled). -/

structure GNode where
  id : Nat
  isOS : Bool
  name : String
  deriving DecidableEq, Repr

/-- The graph store: a node list and an undirected relationship list
(Cypher relationships are directed but SUBGRAPH_DELETE_OS matches them
in both directions, so a symmetric adjacency suffices). -/
structure Store where
  nodes : List GNode
  edges : List (Nat × Nat)
  deriving DecidableEq, Repr

def nodeIds (s : Store) : List Nat := s.nodes.map GNode.id

/-- Two ids are adjacent when some relationship joins them, in either
direction. -/
def adjacentB (s : Store) (a b : Nat) : Bool :=
  s.edges.any (fun e => (e.1 == a && e.2 == b) || (e.1 == b && e.2 == a))

/-- One round of breadth-first growth of a reachable set: append every
node id adjacent to the current set that is not yet in it. -/
def growOnce (s : Store) (cur : List Nat) : List Nat :=
  cur ++ (nodeIds s).filter
    (fun v => (!cur.any (fun u => u == v)) && cur.any (fun u => adjacentB s u v))

def iterGrow (s : Store) : Nat → List Nat → List Nat
  | 0, cur => cur
  | k + 1, cur => iterGrow s k (growOnce s cur)

/-- The set of node ids reachable from the start ids through
relationships in any direction, at any depth: growing once per node of
the store saturates. -/
def reachClosure (s : Store) (start : List Nat) : List Nat :=
  iterGrow s s.nodes.length start

/-- Reachability as an inductive relation: the reflexive-transitive
closure of adjacency.  Used to state what the Cypher variable-length
pattern (o)-[*0..]-(x) matches. -/
inductive Reaches (s : Store) (a : Nat) : Nat → Prop
  | refl : Reaches s a a
  | tail {b c : Nat} : Reaches s a b → adjacentB s b c = true → Reaches s a c

/-- Store well-formedness: node ids are pairwise distinct and every
relationship endpoint is the id of a stored node. -/
def StoreWF (s : Store) : Prop :=
  (nodeIds s).Nodup ∧ ∀ e ∈ s.edges, e.1 ∈ nodeIds s ∧ e.2 ∈ nodeIds s

instance (s : Store) : Decidable (StoreWF s) := by
  unfold StoreWF; infer_instance

/-- An id is doomed by SUBGRAPH_DELETE_OS for a given name when some OS
node with that name reaches it. -/
def doomed (s : Store) (vm : String) (x : Nat) : Bool :=
  s.nodes.any (fun o =>
    o.isOS && o.name == vm && (reachClosure s [o.id]).any (fun y => y == x))

/-- The SUBGRAPH_DELETE_OS Cypher query:
MATCH (o:OS)-[*0..]-(x) WHERE o.name = vm WITH DISTINCT x DETACH DELETE x.
Every node reachable (any direction, any depth, length 0 included) from
an OS node carrying the name is detach-deleted; relationships with a
deleted endpoint disappear with their node. -/
def deleteSubgraph (s : Store) (vm : String) : Store :=
  Store.mk (s.nodes.filter (fun n => !doomed s vm n.id))
           (s.edges.filter (fun e => !(doomed s vm e.1 || doomed s vm e.2)))

/-- A fresh internal id for a created node. -/
def freshId (s : Store) : Nat :=
  s.nodes.foldr (fun n m => max (n.id + 1) m) 0

/-- graph.push(os_node) (py2neo): a MATCH-by-id / SET update.  If a
stored node has the entity's id its fields are overwritten with the
in-memory entity; if none has, the query matches nothing and the store
is unchanged (a deleted node is not re-created). -/
def pushStore (s : Store) : Option GNode → Store
  | none => s
  | some e =>
      if s.nodes.any (fun n => n.id == e.id) then
        Store.mk (s.nodes.map (fun n => if n.id == e.id then e else n)) s.edges
      else s

/-! ## The protocol driver (function protocol) -/

/-- One phase of the fixed protocol: a named hook trigger point, a
power transition, or the desktop-ready blocking sleep. -/
inductive ProtoStep
  | trigger (name : String)
  | poweron
  | sleepFor (d : Int)
  | poweroff
  deriving DecidableEq, Repr

/-- The phase list of function protocol: protocol_start, offline, then
-- only when the configured desktop_ready_delay is strictly positive --
poweron, the blocking sleep, desktop_ready, poweroff, and finally
protocol_end. -/
def protocol (desktop_ready_delay : Int) : List ProtoStep :=
  [ProtoStep.trigger "protocol_start", ProtoStep.trigger "offline"]
    ++ (if 0 < desktop_ready_delay then
          [ProtoStep.poweron, ProtoStep.sleepFor desktop_ready_delay,
           ProtoStep.trigger "desktop_ready", ProtoStep.poweroff]
        else [])
    ++ [ProtoStep.trigger "protocol_end"]

def triggersOf (l : List ProtoStep) : List String :=
  l.filterMap (fun s => match s with
    | ProtoStep.trigger n => some n
    | _ => none)

/-! ## Hook configuration (hooks.json) -/

/-- The neo4j sub-object of the configuration: the enabled, delete and
replace keys, read with dict truthiness. -/
structure NeoObj where
  enabled : Bool
  delete : Bool
  replace : Bool
  deriving DecidableEq, Repr

/-- The top-level configuration object of hooks.json: the
desktop_ready_delay key (absent allowed) and the neo4j key (absent
allowed). -/
structure ConfObj where
  desktop_ready_delay : Option Int
  neo4j : Option NeoObj
  deriving DecidableEq, Repr

/-- The hook-configuration file as capture_main sees it: missing from
disk, present but not valid JSON, or valid with an optional top-level
configuration object. -/
inductive CfgFile
  | missing
  | invalid
  | valid (configuration : Option ConfObj)
  deriving DecidableEq, Repr

def DESKTOP_READY_DELAY : Int := 180

/-- The configuration after capture_main's normalisation: a missing
configuration key becomes an empty object, a missing
desktop_ready_delay becomes DESKTOP_READY_DELAY, and domain_name and
debug are injected. -/
structure NormConf where
  desktop_ready_delay : Int
  domain_name : String
  debug : Bool
  neo4j : Option NeoObj
  deriving DecidableEq, Repr

def normalizeConfig (conf : Option ConfObj) (vm : String) (dbg : Bool) : NormConf :=
  match conf with
  | none => NormConf.mk DESKTOP_READY_DELAY vm dbg none
  | some c => NormConf.mk (c.desktop_ready_delay.getD DESKTOP_READY_DELAY) vm dbg c.neo4j

/-! ## Observable events of a run -/

inductive Event
  | logError
  | logSkip
  | deletedAll
  | ranSubgraphDelete (name : String)
  | createdNode (name : String)
  | tempFileCreated
  | tempDirCreated
  | contextReleased
  | trig (name : String)
  | poweron
  | poweroff
  | slept (d : Int)
  | pushed (name : String)
  deriving DecidableEq, Repr

def isCreate : Event → Bool
  | Event.createdNode _ => true
  | _ => false

def isTrig : Event → Bool
  | Event.trig _ => true
  | _ => false

/-- Events a protocol phase emits. -/
def eventOfStep : ProtoStep → Event
  | ProtoStep.trigger n => Event.trig n
  | ProtoStep.poweron => Event.poweron
  | ProtoStep.sleepFor d => Event.slept d
  | ProtoStep.poweroff => Event.poweroff

/-- Result of driving the protocol: it ran to the end, a hook raised at
a trigger point, or the operator interrupted it. -/
inductive PRes
  | ok
  | hookRaised
  | interrupted
  deriving DecidableEq, Repr

def decr : Option Nat → Option Nat
  | none => none
  | some k => some (k - 1)

/-- Execute the protocol phases in order.  hookR says at which trigger
names a hook raises (the trigger is still delivered; the exception then
propagates).  intr schedules an operator interrupt: some k raises
KeyboardInterrupt before the k-th remaining phase (or, past the end of
the list, later inside the try block). -/
def protoExec (hookR : String → Bool) : List ProtoStep → Option Nat → List Event × PRes
  | [], intr =>
      match intr with
      | some _ => ([], PRes.interrupted)
      | none => ([], PRes.ok)
  | s :: rest, intr =>
      match intr with
      | some 0 => ([], PRes.interrupted)
      | _ =>
          match s with
          | ProtoStep.trigger n =>
              if hookR n then ([Event.trig n], PRes.hookRaised)
              else
                let r := protoExec hookR rest (decr intr)
                (Event.trig n :: r.1, r.2)
          | s =>
              let r := protoExec hookR rest (decr intr)
              (eventOfStep s :: r.1, r.2)

/-! ## The session coordinator (capture_main) -/

/-- Externally determined behaviour of one run: the configuration file
contents, the initial graph store, whether provisioning succeeds,
which triggers a hook raises at, the interrupt schedule, and the
evidence nodes and relationships the hooks attach during the run. -/
structure World where
  file : CfgFile
  store : Store
  provisionOk : Bool
  hookRaisesAt : String → Bool
  intr : Option Nat
  attachedNodes : List GNode
  attachedEdges : List (Nat × Nat)

/-- Outcome of one call of capture_main. -/
inductive Outcome
  | fileErrorRaised
  | invalidJsonReturn
  | skipped
  | completed
  | interruptedDone
  | provisionRaised
  | hookErrorRaised
  deriving DecidableEq, Repr

structure RunResult where
  trace : List Event
  store : Store
  outcome : Outcome
  deriving DecidableEq, Repr

/-- graph.delete_all() when the delete key is truthy, before the
replace check. -/
def afterDelete (neo : NeoObj) (s : Store) : Store :=
  if neo.delete then Store.mk [] [] else s

def deleteEvents (neo : NeoObj) : List Event :=
  if neo.delete then [Event.deletedAll] else []

/-- os_match.first(): does an OS node with this name exist. -/
def osMatch (s : Store) (vm : String) : Bool :=
  s.nodes.any (fun n => n.isOS && n.name == vm)

/-- The admission branch once the skip case is excluded: with a match
still present (so replace was requested) the previous subgraph is
deleted; otherwise the store is untouched. -/
def admitStore (vm : String) (s1 : Store) : Store :=
  if osMatch s1 vm then deleteSubgraph s1 vm else s1

def admitEvents (vm : String) (s1 : Store) : List Event :=
  if osMatch s1 vm then [Event.ranSubgraphDelete vm] else []

/-- The OS node capture_main creates (OS(vm_name) followed by
graph.create). -/
def newEntity (vm : String) (s2 : Store) : GNode :=
  GNode.mk (freshId s2) true vm

def createEntity (vm : String) (s2 : Store) : Store :=
  Store.mk (s2.nodes ++ [newEntity vm s2]) s2.edges

/-- Store passed into the protocol run on the ledger-enabled path. -/
def ledgerStore (vm : String) (neo : NeoObj) (s : Store) : Store :=
  createEntity vm (admitStore vm (afterDelete neo s))

/-- The entity created on the ledger-enabled path. -/
def ledgerEntity (vm : String) (neo : NeoObj) (s : Store) : GNode :=
  newEntity vm (admitStore vm (afterDelete neo s))

/-- Evidence attached by hooks during the protocol. -/
def attachHooks (s : Store) (aN : List GNode) (aE : List (Nat × Nat)) : Store :=
  Store.mk (s.nodes ++ aN) (s.edges ++ aE)

/-- The try block of capture_main: scoped provisioning, the protocol,
the `with` exits, the KeyboardInterrupt handler, and the trailing push.

If provisioning fails, QEMUDomainContextFactory.__init__ has already
created the temporary configuration file and then propagates the
hypervisor error; except KeyboardInterrupt does not catch it, the with
blocks were never entered, and the trailing push is skipped.

If provisioning succeeds, the protocol runs.  On every exit of the with
blocks -- normal end, hook exception, KeyboardInterrupt -- the scoped
release runs (storage directory removed, temp file closed).  A hook
exception then propagates, skipping the push.  A KeyboardInterrupt is
caught: with a ledger entity at hand the handler re-runs
SUBGRAPH_DELETE_OS on the name, and the function then falls through to
the push.  Normal completion falls through to the push as well. -/
def runSession (vm : String) (w : World) (s : Store) (ent : Option GNode)
    (delay : Int) : RunResult :=
  match w.provisionOk with
  | false => RunResult.mk [Event.tempFileCreated] s Outcome.provisionRaised
  | true =>
      let sMid := attachHooks s w.attachedNodes w.attachedEdges
      match protoExec w.hookRaisesAt (protocol delay) w.intr, ent with
      | (tr, PRes.ok), some e =>
          RunResult.mk
            ([Event.tempFileCreated, Event.tempDirCreated] ++ tr
              ++ [Event.contextReleased, Event.pushed vm])
            (pushStore sMid (some e)) Outcome.completed
      | (tr, PRes.ok), none =>
          RunResult.mk
            ([Event.tempFileCreated, Event.tempDirCreated] ++ tr
              ++ [Event.contextReleased])
            sMid Outcome.completed
      | (tr, PRes.hookRaised), _ =>
          RunResult.mk
            ([Event.tempFileCreated, Event.tempDirCreated] ++ tr
              ++ [Event.contextReleased])
            sMid Outcome.hookErrorRaised
      | (tr, PRes.interrupted), some e =>
          RunResult.mk
            ([Event.tempFileCreated, Event.tempDirCreated] ++ tr
              ++ [Event.contextReleased, Event.ranSubgraphDelete vm,
                  Event.pushed vm])
            (pushStore (deleteSubgraph sMid vm) (some e)) Outcome.interruptedDone
      | (tr, PRes.interrupted), none =>
          RunResult.mk
            ([Event.tempFileCreated, Event.tempDirCreated] ++ tr
              ++ [Event.contextReleased])
            sMid Outcome.interruptedDone

/-- capture_main: load hooks.json (a missing file raises
FileNotFoundError uncaught; invalid JSON logs an error and returns),
normalise the configuration, run the ledger admission when neo4j is
enabled (delete_all when requested; skip when a match exists and
replace is false; delete the previous subgraph when a match exists and
replace is true; then create the OS node), and run the session. -/
def capture_main (vm : String) (dbg : Bool) (w : World) : RunResult :=
  match w.file with
  | CfgFile.missing => RunResult.mk [] w.store Outcome.fileErrorRaised
  | CfgFile.invalid => RunResult.mk [Event.logError] w.store Outcome.invalidJsonReturn
  | CfgFile.valid conf =>
      match (normalizeConfig conf vm dbg).neo4j with
      | some neo =>
          if neo.enabled then
            if !neo.replace && osMatch (afterDelete neo w.store) vm then
              RunResult.mk (deleteEvents neo ++ [Event.logSkip])
                (afterDelete neo w.store) Outcome.skipped
            else
              RunResult.mk
                (deleteEvents neo ++ admitEvents vm (afterDelete neo w.store)
                  ++ [Event.createdNode vm]
                  ++ (runSession vm w (ledgerStore vm neo w.store)
                      (some (ledgerEntity vm neo w.store))
                      (normalizeConfig conf vm dbg).desktop_ready_delay).trace)
                (runSession vm w (ledgerStore vm neo w.store)
                  (some (ledgerEntity vm neo w.store))
                  (normalizeConfig conf vm dbg).desktop_ready_delay).store
                (runSession vm w (ledgerStore vm neo w.store)
                  (some (ledgerEntity vm neo w.store))
                  (normalizeConfig conf vm dbg).desktop_ready_delay).outcome
          else
            runSession vm w w.store none (normalizeConfig conf vm dbg).desktop_ready_delay
      | none => runSession vm w w.store none (normalizeConfig conf vm dbg).desktop_ready_delay

/-! ## The ephemeral context provisioner (QEMUDomainContextFactory.__init__) -/

/-- The three provisioning failure conditions. -/
inductive ProvFail
  | hypervisorUnreachable
  | vmNotFound
  | diskUnresolvable
  deriving DecidableEq, Repr

/-- Resource events of __init__. -/
inductive PEvent
  | tempFileCreated
  | xmlWritten
  | tempDirCreated
  | tempFileRemoved
  | tempDirRemoved
  deriving DecidableEq, Repr

/-- The error __init__ propagates: the collaborator's own exception,
carrying the cause, as raised by libvirt.open / lookupByName / the disk
path resolution.  The wrapped form the specification names. -/
inductive PErr
  | underlying (c : ProvFail)
  | provisionError (c : ProvFail)
  deriving DecidableEq, Repr

/-- QEMUDomainContextFactory.__init__, in source order: the
NamedTemporaryFile is created first; libvirt.open may fail
(hypervisor unreachable); lookupByName may fail (VM not found); the
domain XML is written; the disk path resolution may fail; only then is
the TemporaryDirectory created.  There is no handler in __init__: on
failure the collaborator's exception propagates as is and no removal
of the already-created temporary file happens. -/
def provisionInit (fail : Option ProvFail) : List PEvent × Option PErr :=
  match fail with
  | some ProvFail.hypervisorUnreachable =>
      ([PEvent.tempFileCreated], some (PErr.underlying ProvFail.hypervisorUnreachable))
  | some ProvFail.vmNotFound =>
      ([PEvent.tempFileCreated], some (PErr.underlying ProvFail.vmNotFound))
  | some ProvFail.diskUnresolvable =>
      ([PEvent.tempFileCreated, PEvent.xmlWritten],
       some (PErr.underlying ProvFail.diskUnresolvable))
  | none =>
      ([PEvent.tempFileCreated, PEvent.xmlWritten, PEvent.tempDirCreated], none)

/-! ## Reachability: the bounded closure computation agrees with Reaches -/

theorem mem_growOnce (s : Store) (cur : List Nat) {a : Nat} (h : a ∈ cur) :
    a ∈ growOnce s cur :=
  List.mem_append_left _ h

theorem mem_iterGrow (s : Store) (k : Nat) :
    ∀ (cur : List Nat) (a : Nat), a ∈ cur → a ∈ iterGrow s k cur := by
  induction k with
  | zero => intro cur a h; exact h
  | succ k ih =>
      intro cur a h
      simpa only [iterGrow] using ih (growOnce s cur) a (mem_growOnce s cur h)

theorem growOnce_sound {s : Store} {a : Nat} {cur : List Nat}
    (h : ∀ u ∈ cur, Reaches s a u) : ∀ v ∈ growOnce s cur, Reaches s a v := by
  intro v hv
  rcases List.mem_append.mp hv with h1 | h1
  · exact h v h1
  · have h2 := (List.mem_filter.mp h1).2
    have h3 : (cur.any fun u => adjacentB s u v) = true := (Bool.and_eq_true_iff.mp h2).2
    rcases List.any_eq_true.mp h3 with ⟨u, hu, hadj⟩
    exact Reaches.tail (h u hu) hadj

theorem iterGrow_sound {s : Store} {a : Nat} (k : Nat) :
    ∀ (cur : List Nat), (∀ u ∈ cur, Reaches s a u) →
      ∀ v ∈ iterGrow s k cur, Reaches s a v := by
  induction k with
  | zero => intro cur h v hv; exact h v hv
  | succ k ih =>
      intro cur h v hv
      simp only [iterGrow] at hv
      exact ih (growOnce s cur) (growOnce_sound h) v hv

theorem reachClosure_sound {s : Store} {a v : Nat}
    (h : v ∈ reachClosure s [a]) : Reaches s a v := by
  apply iterGrow_sound s.nodes.length [a] _ v h
  intro u hu
  rw [List.mem_singleton] at hu
  exact hu ▸ Reaches.refl

theorem growOnce_fix_closed {s : Store} {cur : List Nat}
    (h : growOnce s cur = cur) :
    ∀ v ∈ nodeIds s, (cur.any fun u => adjacentB s u v) = true → v ∈ cur := by
  intro v hv hadj
  by_contra hvc
  have hL : ((nodeIds s).filter
      (fun v => (!cur.any (fun u => u == v)) && cur.any (fun u => adjacentB s u v)))
      = [] := by
    have hlen := congrArg List.length h
    simp only [growOnce, List.length_append] at hlen
    exact List.eq_nil_of_length_eq_zero (by omega)
  have hforall := List.filter_eq_nil_iff.mp hL v hv
  apply hforall
  simp only [Bool.and_eq_true, Bool.not_eq_true']
  constructor
  · by_contra hany
    rw [Bool.not_eq_false] at hany
    rcases List.any_eq_true.mp hany with ⟨u, hu, hue⟩
    exact hvc ((beq_iff_eq.mp hue) ▸ hu)
  · exact hadj

theorem invP_grow {s : Store} {start cur : List Nat} (hwf : StoreWF s)
    (h1 : cur.Nodup) (h2 : cur ⊆ start ++ nodeIds s) :
    (growOnce s cur).Nodup ∧ growOnce s cur ⊆ start ++ nodeIds s := by
  constructor
  · apply List.Nodup.append h1 (List.Nodup.filter _ hwf.1)
    intro a ha hb
    have hp := (List.mem_filter.mp hb).2
    have hno := (Bool.and_eq_true_iff.mp hp).1
    rw [Bool.not_eq_eq_eq_not, Bool.not_true] at hno
    have : (cur.any fun u => u == a) = true :=
      List.any_eq_true.mpr ⟨a, ha, beq_self_eq_true a⟩
    rw [this] at hno
    exact Bool.true_eq_false.mp hno
  · intro a ha
    rcases List.mem_append.mp ha with h | h
    · exact h2 h
    · exact List.mem_append_right _ (List.mem_filter.mp h).1

theorem nodup_subset_length {cur base : List Nat}
    (h1 : cur.Nodup) (h2 : cur ⊆ base) : cur.length ≤ base.length := by
  calc cur.length = cur.toFinset.card := (List.toFinset_card_of_nodup h1).symm
    _ ≤ base.toFinset.card := by
        apply Finset.card_le_card
        intro x hx
        exact List.mem_toFinset.mpr (h2 (List.mem_toFinset.mp hx))
    _ ≤ base.length := @List.toFinset_card_le Nat _ base

theorem growOnce_length {s : Store} {cur : List Nat}
    (h : growOnce s cur ≠ cur) : cur.length + 1 ≤ (growOnce s cur).length := by
  rcases hL : ((nodeIds s).filter
      (fun v => (!cur.any (fun u => u == v)) && cur.any (fun u => adjacentB s u v)))
      with _ | ⟨x, xs⟩
  · exact absurd (by simp [growOnce, hL]) h
  · simp [growOnce, hL, List.length_append]

theorem iterGrow_fix {s : Store} {cur : List Nat}
    (h : growOnce s cur = cur) : ∀ k, iterGrow s k cur = cur := by
  intro k
  induction k with
  | zero => rfl
  | succ k ih => simp only [iterGrow, h]; exact ih

theorem invP_iterGrow {s : Store} {start : List Nat} (hwf : StoreWF s) :
    ∀ (k : Nat) (cur : List Nat), cur.Nodup → cur ⊆ start ++ nodeIds s →
      (iterGrow s k cur).Nodup ∧ iterGrow s k cur ⊆ start ++ nodeIds s := by
  intro k
  induction k with
  | zero => intro cur h1 h2; exact ⟨h1, h2⟩
  | succ k ih =>
      intro cur h1 h2
      obtain ⟨g1, g2⟩ := invP_grow hwf h1 h2
      simpa only [iterGrow] using ih (growOnce s cur) g1 g2

theorem iterGrow_progress {s : Store} {start : List Nat} (hwf : StoreWF s) :
    ∀ (k : Nat) (cur : List Nat), cur.Nodup → cur ⊆ start ++ nodeIds s →
      growOnce s (iterGrow s k cur) = iterGrow s k cur ∨
        cur.length + k ≤ (iterGrow s k cur).length := by
  intro k
  induction k with
  | zero => intro cur h1 h2; right; simp [iterGrow]
  | succ k ih =>
      intro cur h1 h2
      by_cases hfix : growOnce s cur = cur
      · left
        have h3 : iterGrow s (k + 1) cur = cur := by
          simp only [iterGrow, hfix]
          exact iterGrow_fix hfix k
        rw [h3]
        exact hfix
      · obtain ⟨g1, g2⟩ := invP_grow hwf h1 h2
        have hlen := growOnce_length hfix
        rcases ih (growOnce s cur) g1 g2 with h | h
        · left
          simpa only [iterGrow] using h
        · right
          simp only [iterGrow]
          omega

theorem reachClosure_fix {s : Store} {start : List Nat} (hwf : StoreWF s)
    (h1 : start.Nodup) :
    growOnce s (iterGrow s s.nodes.length start) = iterGrow s s.nodes.length start := by
  have h2 : start ⊆ start ++ nodeIds s := List.subset_append_left _ _
  rcases iterGrow_progress hwf s.nodes.length start h1 h2 with h | h
  · exact h
  · obtain ⟨g1, g2⟩ := invP_iterGrow hwf s.nodes.length start h1 h2
    by_contra hne
    have hlen2 := growOnce_length hne
    obtain ⟨g3, g4⟩ := invP_grow hwf g1 g2
    have hb1 := nodup_subset_length g3 g4
    have hbase : (start ++ nodeIds s).length = start.length + s.nodes.length := by
      simp [nodeIds]
    omega

theorem adjacent_mem_nodeIds {s : Store} (hwf : StoreWF s) {b c : Nat}
    (h : adjacentB s b c = true) : c ∈ nodeIds s := by
  rcases List.any_eq_true.mp h with ⟨e, he, hp⟩
  rcases Bool.or_eq_true_iff.mp hp with h1 | h1
  · have h2 := Bool.and_eq_true_iff.mp h1
    have hc : e.2 = c := beq_iff_eq.mp h2.2
    exact hc ▸ (hwf.2 e he).2
  · have h2 := Bool.and_eq_true_iff.mp h1
    have hc : e.1 = c := beq_iff_eq.mp h2.1
    exact hc ▸ (hwf.2 e he).1

theorem reachClosure_complete {s : Store} (hwf : StoreWF s) {a v : Nat}
    (h : Reaches s a v) : v ∈ reachClosure s [a] := by
  induction h with
  | refl => exact mem_iterGrow s s.nodes.length [a] a (List.mem_singleton_self a)
  | tail hb hadj ih =>
      have hfix := reachClosure_fix hwf (List.nodup_singleton a)
      have hc := adjacent_mem_nodeIds hwf hadj
      apply growOnce_fix_closed hfix _ hc
      exact List.any_eq_true.mpr ⟨_, ih, hadj⟩

/-! ## SUBGRAPH_DELETE_OS characterised through Reaches -/

theorem doomed_sound {s : Store} {vm : String} {x : Nat}
    (h : doomed s vm x = true) :
    ∃ o ∈ s.nodes, o.isOS = true ∧ o.name = vm ∧ Reaches s o.id x := by
  rcases List.any_eq_true.mp h with ⟨o, ho, hp⟩
  have h1 := Bool.and_eq_true_iff.mp hp
  have h2 := Bool.and_eq_true_iff.mp h1.1
  refine ⟨o, ho, h2.1, beq_iff_eq.mp h2.2, ?_⟩
  rcases List.any_eq_true.mp h1.2 with ⟨y, hy, hyx⟩
  exact (beq_iff_eq.mp hyx) ▸ reachClosure_sound hy

theorem doomed_complete {s : Store} {vm : String} (hwf : StoreWF s)
    {o : GNode} {x : Nat} (ho : o ∈ s.nodes) (h1 : o.isOS = true)
    (h2 : o.name = vm) (h3 : Reaches s o.id x) : doomed s vm x = true := by
  apply List.any_eq_true.mpr
  refine ⟨o, ho, ?_⟩
  simp only [Bool.and_eq_true]
  refine ⟨⟨h1, by simp [h2]⟩, ?_⟩
  exact List.any_eq_true.mpr ⟨x, reachClosure_complete hwf h3, beq_self_eq_true x⟩

theorem doomed_self {s : Store} {vm : String} {o : GNode} (ho : o ∈ s.nodes)
    (h1 : o.isOS = true) (h2 : o.name = vm) : doomed s vm o.id = true := by
  apply List.any_eq_true.mpr
  refine ⟨o, ho, ?_⟩
  simp only [Bool.and_eq_true]
  refine ⟨⟨h1, by simp [h2]⟩, ?_⟩
  apply List.any_eq_true.mpr
  exact ⟨o.id, mem_iterGrow s s.nodes.length [o.id] o.id (List.mem_singleton_self _),
    beq_self_eq_true o.id⟩

theorem mem_deleteSubgraph {s : Store} {vm : String} {n : GNode} :
    n ∈ (deleteSubgraph s vm).nodes ↔ n ∈ s.nodes ∧ doomed s vm n.id = false := by
  simp [deleteSubgraph, List.mem_filter]

/-! ## Shape of the events the protocol run emits -/

def protoEvent : Event → Bool
  | Event.trig _ => true
  | Event.poweron => true
  | Event.poweroff => true
  | Event.slept _ => true
  | _ => false

theorem protoExec_events (hookR : String → Bool) :
    ∀ (steps : List ProtoStep) (intr : Option Nat) (e : Event),
      e ∈ (protoExec hookR steps intr).1 → protoEvent e = true := by
  intro steps
  induction steps with
  | nil =>
      intro intr e he
      cases intr <;> simp [protoExec] at he
  | cons s rest ih =>
      intro intr e he
      have hstep : ∀ (j : Option Nat), e ∈ (protoExec hookR (s :: rest) j).1 →
          (match j with | some 0 => False | _ => True) → protoEvent e = true := by
        intro j hj hne
        cases s with
        | trigger n =>
            by_cases hr : hookR n
            · cases j with
              | none =>
                  simp [protoExec, hr] at hj
                  simp [hj, protoEvent]
              | some k =>
                  cases k with
                  | zero => simp at hne
                  | succ k =>
                      simp [protoExec, hr] at hj
                      simp [hj, protoEvent]
            · cases j with
              | none =>
                  simp only [protoExec, hr, if_false] at hj
                  rcases List.mem_cons.mp hj with h | h
                  · simp [h, protoEvent]
                  · exact ih (decr none) e h
              | some k =>
                  cases k with
                  | zero => simp at hne
                  | succ k =>
                      simp only [protoExec, hr, if_false] at hj
                      rcases List.mem_cons.mp hj with h | h
                      · simp [h, protoEvent]
                      · exact ih (decr (some (k + 1))) e h
        | poweron =>
            cases j with
            | none =>
                rcases List.mem_cons.mp (by simpa [protoExec] using hj) with h | h
                · simp [h, protoEvent, eventOfStep]
                · exact ih (decr none) e h
            | some k =>
                cases k with
                | zero => simp at hne
                | succ k =>
                    rcases List.mem_cons.mp (by simpa [protoExec] using hj) with h | h
                    · simp [h, protoEvent, eventOfStep]
                    · exact ih (decr (some (k + 1))) e h
        | sleepFor d =>
            cases j with
            | none =>
                rcases List.mem_cons.mp (by simpa [protoExec] using hj) with h | h
                · simp [h, protoEvent, eventOfStep]
                · exact ih (decr none) e h
            | some k =>
                cases k with
                | zero => simp at hne
                | succ k =>
                    rcases List.mem_cons.mp (by simpa [protoExec] using hj) with h | h
                    · simp [h, protoEvent, eventOfStep]
                    · exact ih (decr (some (k + 1))) e h
        | poweroff =>
            cases j with
            | none =>
                rcases List.mem_cons.mp (by simpa [protoExec] using hj) with h | h
                · simp [h, protoEvent, eventOfStep]
                · exact ih (decr none) e h
            | some k =>
                cases k with
                | zero => simp at hne
                | succ k =>
                    rcases List.mem_cons.mp (by simpa [protoExec] using hj) with h | h
                    · simp [h, protoEvent, eventOfStep]
                    · exact ih (decr (some (k + 1))) e h
      cases intr with
      | none => exact hstep none he trivial
      | some k =>
          cases k with
          | zero => simp [protoExec] at he
          | succ k => exact hstep (some (k + 1)) he trivial

theorem protoEvent_not_create {e : Event} (h : protoEvent e = true) :
    isCreate e = false := by
  cases e <;> simp_all [protoEvent, isCreate]

/-! ## Session-level helper lemmas -/

theorem runSession_provisionFail {vm : String} {w : World} {s : Store}
    {ent : Option GNode} {delay : Int} (hp : w.provisionOk = false) :
    runSession vm w s ent delay
      = RunResult.mk [Event.tempFileCreated] s Outcome.provisionRaised := by
  unfold runSession
  rw [hp]

theorem runSession_released_iff {vm : String} {w : World} {s : Store}
    {ent : Option GNode} {delay : Int} :
    Event.contextReleased ∈ (runSession vm w s ent delay).trace
      ↔ w.provisionOk = true := by
  unfold runSession
  cases hpk : w.provisionOk with
  | false => simp
  | true =>
      rcases hr : protoExec w.hookRaisesAt (protocol delay) w.intr with ⟨tr, res⟩
      cases res <;> cases ent <;> simp

theorem runSession_outcome_ne {vm : String} {w : World} {s : Store}
    {ent : Option GNode} {delay : Int} :
    (runSession vm w s ent delay).outcome ≠ Outcome.skipped ∧
    (runSession vm w s ent delay).outcome ≠ Outcome.fileErrorRaised ∧
    (runSession vm w s ent delay).outcome ≠ Outcome.invalidJsonReturn := by
  unfold runSession
  cases hpk : w.provisionOk with
  | false => simp
  | true =>
      rcases hr : protoExec w.hookRaisesAt (protocol delay) w.intr with ⟨tr, res⟩
      cases res <;> cases ent <;> simp

theorem runSession_no_create {vm : String} {w : World} {s : Store}
    {ent : Option GNode} {delay : Int} :
    ∀ e ∈ (runSession vm w s ent delay).trace, isCreate e = false := by
  unfold runSession
  cases hpk : w.provisionOk with
  | false => intro e he; simp at he; simp [he, isCreate]
  | true =>
      rcases hr : protoExec w.hookRaisesAt (protocol delay) w.intr with ⟨tr, res⟩
      have htr : ∀ e ∈ tr, isCreate e = false := by
        intro e he
        apply protoEvent_not_create
        apply protoExec_events w.hookRaisesAt (protocol delay) w.intr e
        rw [hr]
        exact he
      cases res <;> cases ent <;>
        · intro e he
          have he2 : e = Event.tempFileCreated ∨ e = Event.tempDirCreated ∨
              e ∈ tr ∨ e = Event.contextReleased ∨
              e = Event.ranSubgraphDelete vm ∨ e = Event.pushed vm := by
            simp only [List.mem_append, List.mem_cons, List.mem_singleton,
              List.not_mem_nil, or_false] at he
            tauto
          rcases he2 with h | h | h | h | h | h
          · simp [h, isCreate]
          · simp [h, isCreate]
          · exact htr e h
          · simp [h, isCreate]
          · simp [h, isCreate]
          · simp [h, isCreate]

theorem runSession_store_prov {vm : String} {w : World} {s : Store}
    {ent : Option GNode} {delay : Int}
    (h : (runSession vm w s ent delay).outcome = Outcome.provisionRaised) :
    (runSession vm w s ent delay).store = s := by
  unfold runSession at h ⊢
  cases hpk : w.provisionOk with
  | false => simp
  | true =>
      rw [hpk] at h
      rcases hr : protoExec w.hookRaisesAt (protocol delay) w.intr with ⟨tr, res⟩
      rw [hr] at h
      cases res <;> cases ent <;> simp_all

theorem runSession_store_hook {vm : String} {w : World} {s : Store}
    {ent : Option GNode} {delay : Int}
    (h : (runSession vm w s ent delay).outcome = Outcome.hookErrorRaised) :
    (runSession vm w s ent delay).store
      = attachHooks s w.attachedNodes w.attachedEdges := by
  unfold runSession at h ⊢
  cases hpk : w.provisionOk with
  | false => rw [hpk] at h; simp at h
  | true =>
      rw [hpk] at h
      rcases hr : protoExec w.hookRaisesAt (protocol delay) w.intr with ⟨tr, res⟩
      rw [hr] at h
      cases res <;> cases ent <;> simp_all

theorem runSession_store_intr {vm : String} {w : World} {s : Store}
    {e : GNode} {delay : Int}
    (h : (runSession vm w s (some e) delay).outcome = Outcome.interruptedDone) :
    (runSession vm w s (some e) delay).store
      = pushStore (deleteSubgraph (attachHooks s w.attachedNodes w.attachedEdges) vm)
          (some e) := by
  unfold runSession at h ⊢
  cases hpk : w.provisionOk with
  | false => rw [hpk] at h; simp at h
  | true =>
      rw [hpk] at h
      rcases hr : protoExec w.hookRaisesAt (protocol delay) w.intr with ⟨tr, res⟩
      rw [hr] at h
      cases res <;> simp_all

/-! ## Claim theorems: the protocol driver -/

/-- Claim C1: for every configured desktop-ready delay d, if d = 0 the
protocol driver delivers to the hooks exactly the trigger sequence
protocol_start, offline, protocol_end and never powers the VM on; if
d > 0 the phase list is exactly protocol_start, offline, poweron, the
blocking sleep, desktop_ready, poweroff, protocol_end, so the context
is powered on before desktop_ready and powered off before
protocol_end. -/
theorem c1_protocol_sequence (d : Int) :
    (d = 0 →
      triggersOf (protocol d) = ["protocol_start", "offline", "protocol_end"]
        ∧ ProtoStep.poweron ∉ protocol d)
    ∧ (0 < d →
      protocol d =
        [ProtoStep.trigger "protocol_start", ProtoStep.trigger "offline",
         ProtoStep.poweron, ProtoStep.sleepFor d,
         ProtoStep.trigger "desktop_ready", ProtoStep.poweroff,
         ProtoStep.trigger "protocol_end"]
      ∧ triggersOf (protocol d) =
        ["protocol_start", "offline", "desktop_ready", "protocol_end"]) := by
  constructor
  · intro h
    subst h
    exact ⟨by decide, by decide⟩
  · intro h
    constructor
    · simp [protocol, h]
    · simp [protocol, h, triggersOf]

theorem c1_protocol_sequence_wit :
    (triggersOf (protocol 0) = ["protocol_start", "offline", "protocol_end"]
      ∧ ProtoStep.poweron ∉ protocol 0)
    ∧ (protocol 180 =
        [ProtoStep.trigger "protocol_start", ProtoStep.trigger "offline",
         ProtoStep.poweron, ProtoStep.sleepFor 180,
         ProtoStep.trigger "desktop_ready", ProtoStep.poweroff,
         ProtoStep.trigger "protocol_end"]
      ∧ triggersOf (protocol 180) =
        ["protocol_start", "offline", "desktop_ready", "protocol_end"]) :=
  ⟨(c1_protocol_sequence 0).1 rfl, (c1_protocol_sequence 180).2 (by decide)⟩

/-- Claim C10: a negative configured desktop_ready_delay behaves exactly
as a zero delay: the power cycle is skipped, the VM is never powered
on, and the hooks observe only protocol_start, offline, protocol_end. -/
theorem c10_negative_delay (d : Int) (hd : d < 0) :
    protocol d = protocol 0
    ∧ ProtoStep.poweron ∉ protocol d
    ∧ triggersOf (protocol d) = ["protocol_start", "offline", "protocol_end"] := by
  have h : ¬ 0 < d := by omega
  have h0 : protocol 0 =
      [ProtoStep.trigger "protocol_start", ProtoStep.trigger "offline",
       ProtoStep.trigger "protocol_end"] := by decide
  have hdl : protocol d =
      [ProtoStep.trigger "protocol_start", ProtoStep.trigger "offline",
       ProtoStep.trigger "protocol_end"] := by
    simp [protocol, h]
  refine ⟨by rw [h0, hdl], ?_, ?_⟩
  · rw [hdl]; decide
  · rw [hdl]; decide

theorem c10_negative_delay_wit :
    protocol (-5) = protocol 0
    ∧ ProtoStep.poweron ∉ protocol (-5)
    ∧ triggersOf (protocol (-5)) = ["protocol_start", "offline", "protocol_end"] :=
  c10_negative_delay (-5) (by decide)

/-! ## Claim theorems: configuration defaulting -/

/-- Claim C9: a valid configuration lacking the top-level configuration
key, or lacking the desktop_ready_delay sub-key, does not make the
coordinator fail: an empty configuration object is inserted,
desktop_ready_delay is filled with the 180-second default, and the
session then runs (here: a run with no configuration key completes and
performs the 180-second desktop-ready sleep). -/
theorem c9_config_defaults (conf : Option ConfObj) (vm : String) (dbg : Bool)
    (s : Store) :
    (conf = none → normalizeConfig conf vm dbg = NormConf.mk 180 vm dbg none)
    ∧ (∀ c, conf = some c → c.desktop_ready_delay = none →
        (normalizeConfig conf vm dbg).desktop_ready_delay = 180)
    ∧ (capture_main vm dbg
        (World.mk (CfgFile.valid none) s true (fun _ => false) none [] [])).outcome
        = Outcome.completed
    ∧ Event.slept 180 ∈ (capture_main vm dbg
        (World.mk (CfgFile.valid none) s true (fun _ => false) none [] [])).trace := by
  refine ⟨?_, ?_, ?_, ?_⟩
  · intro h
    subst h
    rfl
  · intro c hc hdelay
    subst hc
    simp [normalizeConfig, hdelay, DESKTOP_READY_DELAY]
  · rfl
  · have ht : (capture_main vm dbg
        (World.mk (CfgFile.valid none) s true (fun _ => false) none [] [])).trace
        = [Event.tempFileCreated, Event.tempDirCreated,
           Event.trig "protocol_start", Event.trig "offline", Event.poweron,
           Event.slept 180, Event.trig "desktop_ready", Event.poweroff,
           Event.trig "protocol_end", Event.contextReleased] := rfl
    rw [ht]
    decide

theorem c9_config_defaults_wit :
    normalizeConfig none "win10" false = NormConf.mk 180 "win10" false none :=
  (c9_config_defaults none "win10" false (Store.mk [] [])).1 rfl

/-! ## Claim theorems: the provisioner -/

/-- Claim C5 counterexample: when the hypervisor is unreachable,
__init__ has already created the temporary configuration file, the
error that propagates is the collaborator's own (not a wrapping
ProvisionError), and no removal of the created file happens before
propagation -- a partial context is left behind. -/
theorem c5_claim_cex :
    (provisionInit (some ProvFail.hypervisorUnreachable)).2
      = some (PErr.underlying ProvFail.hypervisorUnreachable)
    ∧ PEvent.tempFileCreated ∈ (provisionInit (some ProvFail.hypervisorUnreachable)).1
    ∧ PEvent.tempFileRemoved ∉ (provisionInit (some ProvFail.hypervisorUnreachable)).1
    ∧ (provisionInit (some ProvFail.hypervisorUnreachable)).2
      ≠ some (PErr.provisionError ProvFail.hypervisorUnreachable) := by
  decide

/-- Claim C5 (amended): every provisioning failure (hypervisor
unreachable, VM not found, disk path not resolvable) propagates the
underlying collaborator error carrying the cause; the temporary
directory has not been created yet at any failure point, but the
already-created temporary configuration file is left behind -- it is
not cleaned up before the error propagates. -/
theorem c5_provision_failure (f : ProvFail) :
    (provisionInit (some f)).2 = some (PErr.underlying f)
    ∧ PEvent.tempFileCreated ∈ (provisionInit (some f)).1
    ∧ PEvent.tempFileRemoved ∉ (provisionInit (some f)).1
    ∧ PEvent.tempDirCreated ∉ (provisionInit (some f)).1
    ∧ PEvent.tempDirRemoved ∉ (provisionInit (some f)).1 := by
  cases f <;> exact ⟨rfl, by decide, by decide, by decide, by decide⟩

/-! ## Claim theorems: the hook-configuration file error path -/

/-- Claim C8 counterexample: with a missing configuration file the run
aborts (FileNotFoundError propagates out of capture_main) but no
message is logged -- the logged-message part of the claim fails for the
missing-file case. -/
theorem c8_claim_cex :
    (capture_main "win10" false
      (World.mk CfgFile.missing (Store.mk [] []) true (fun _ => false) none [] [])).outcome
      = Outcome.fileErrorRaised
    ∧ Event.logError ∉ (capture_main "win10" false
      (World.mk CfgFile.missing (Store.mk [] []) true (fun _ => false) none [] [])).trace := by
  decide

/-- Claim C8 (amended): an unparsable configuration file logs an error
message and returns before any side effect (the trace is exactly the
log event, the store is untouched); a missing configuration file makes
the open call raise before any side effect, with nothing logged and the
store untouched. -/
theorem c8_config_error (vm : String) (dbg : Bool) (w : World) :
    (w.file = CfgFile.invalid →
      capture_main vm dbg w
        = RunResult.mk [Event.logError] w.store Outcome.invalidJsonReturn)
    ∧ (w.file = CfgFile.missing →
      capture_main vm dbg w = RunResult.mk [] w.store Outcome.fileErrorRaised) := by
  constructor <;> intro h <;> simp [capture_main, h]

theorem c8_config_error_wit :
    capture_main "win10" false
      (World.mk CfgFile.invalid (Store.mk [GNode.mk 0 true "win10"] []) true
        (fun _ => false) none [] [])
      = RunResult.mk [Event.logError] (Store.mk [GNode.mk 0 true "win10"] [])
          Outcome.invalidJsonReturn :=
  (c8_config_error "win10" false
    (World.mk CfgFile.invalid (Store.mk [GNode.mk 0 true "win10"] []) true
      (fun _ => false) none [] [])).1 rfl

/-! ## Claim theorems: subgraph deletion -/

/-- A store with two OS entities of different names joined by one
relationship. -/
def sTwoOS : Store :=
  Store.mk [GNode.mk 0 true "a", GNode.mk 1 true "b"] [(0, 1)]

/-- Claim C7 counterexample: SUBGRAPH_DELETE_OS for name a deletes the
OS entity named b as well when the two are connected: nodes of other VM
names are not in general untouched. -/
theorem c7_claim_cex :
    GNode.mk 1 true "b" ∈ sTwoOS.nodes
    ∧ (GNode.mk 1 true "b").name ≠ "a"
    ∧ GNode.mk 1 true "b" ∉ (deleteSubgraph sTwoOS "a").nodes := by
  decide

/-- Claim C7 (amended): on a well-formed store, SUBGRAPH_DELETE_OS for
a name removes exactly the nodes reachable (any direction, any depth,
the named entity itself included) from an OS node carrying that name:
a stored node survives if and only if no same-named OS entity reaches
it.  Nodes of other VM names are therefore untouched exactly when they
are not connected to the named entity's subgraph; with zero dependents
just the entity itself is deleted. -/
theorem c7_subgraph_delete (s : Store) (vm : String) (n : GNode)
    (hwf : StoreWF s) (hn : n ∈ s.nodes) :
    n ∈ (deleteSubgraph s vm).nodes
      ↔ ¬ ∃ o ∈ s.nodes, o.isOS = true ∧ o.name = vm ∧ Reaches s o.id n.id := by
  rw [mem_deleteSubgraph]
  constructor
  · rintro ⟨-, hd⟩ ⟨o, ho, h1, h2, h3⟩
    have hc := doomed_complete hwf ho h1 h2 h3
    rw [hd] at hc
    exact Bool.false_ne_true hc
  · intro hno
    refine ⟨hn, ?_⟩
    by_contra hd
    rw [Bool.not_eq_false] at hd
    exact hno (doomed_sound hd)

/-- A store with an OS entity a and its evidence node, and an
unconnected OS entity b. -/
def sC7 : Store :=
  Store.mk [GNode.mk 0 true "a", GNode.mk 1 false "ev", GNode.mk 2 true "b"] [(0, 1)]

theorem c7_subgraph_delete_wit :
    ¬ ∃ o ∈ sC7.nodes, o.isOS = true ∧ o.name = "a" ∧ Reaches sC7 o.id 2 :=
  (c7_subgraph_delete sC7 "a" (GNode.mk 2 true "b") (by decide) (by decide)).mp
    (by decide)

/-! ## Claim theorems: scoped context release -/

/-- Claim C4: on every exit path of a session in which provisioning
succeeded -- normal completion, hook exception, or interruption -- the
ephemeral context is released: the scoped with-exit runs at session
end, removing the temporary storage directory and closing the
temporary configuration file.  The run reaching provisioning is
captured by the outcome not being an early abort (missing file,
invalid JSON, skipped session). -/
theorem c4_context_release (vm : String) (dbg : Bool) (w : World)
    (hp : w.provisionOk = true)
    (h1 : (capture_main vm dbg w).outcome ≠ Outcome.fileErrorRaised)
    (h2 : (capture_main vm dbg w).outcome ≠ Outcome.invalidJsonReturn)
    (h3 : (capture_main vm dbg w).outcome ≠ Outcome.skipped) :
    Event.contextReleased ∈ (capture_main vm dbg w).trace := by
  obtain ⟨file, s0, pOk, hookR, intr, aN, aE⟩ := w
  cases file with
  | missing => simp [capture_main] at h1
  | invalid => simp [capture_main] at h2
  | valid conf =>
      rcases hneo : (normalizeConfig conf vm dbg).neo4j with _ | neo
      · simp only [capture_main, hneo]
        exact runSession_released_iff.mpr hp
      · by_cases hen : neo.enabled
        · by_cases hskip :
            (!neo.replace && osMatch (afterDelete neo
              (World.mk (CfgFile.valid conf) s0 pOk hookR intr aN aE).store) vm) = true
          · exfalso
            apply h3
            simp only [capture_main, hneo, hen, if_true, hskip]
          · simp only [capture_main, hneo, hen, if_true, hskip, Bool.false_eq_true,
              if_false]
            apply List.mem_append_right
            exact runSession_released_iff.mpr hp
        · simp only [capture_main, hneo, hen, Bool.false_eq_true, if_false]
          exact runSession_released_iff.mpr hp

/-- Concrete session for the release witness: valid configuration with
no ledger, provisioning succeeds, and a hook raises at the offline
trigger -- the hook-exception exit path. -/
def wC4 : World :=
  World.mk (CfgFile.valid none) (Store.mk [] []) true
    (fun n => n == "offline") none [] []

theorem c4_context_release_wit :
    Event.contextReleased ∈ (capture_main "win10" false wC4).trace :=
  c4_context_release "win10" false wC4 rfl (by decide) (by decide) (by decide)

/-! ## Claim theorems: the ledger admission policy -/

theorem deleteEvents_no_create (neo : NeoObj) :
    ∀ e ∈ deleteEvents neo, isCreate e = false ∧ isTrig e = false ∧
      e ≠ Event.contextReleased := by
  unfold deleteEvents
  cases neo.delete <;> simp [isCreate, isTrig]

theorem admitEvents_shape (vm : String) (s1 : Store) :
    ∀ e ∈ admitEvents vm s1, isCreate e = false ∧ isTrig e = false ∧
      e ≠ Event.contextReleased := by
  unfold admitEvents
  cases osMatch s1 vm <;> simp [isCreate, isTrig]

theorem ledgerEntity_mem (vm : String) (neo : NeoObj) (s0 : Store) :
    ledgerEntity vm neo s0 ∈ (ledgerStore vm neo s0).nodes := by
  simp [ledgerStore, createEntity, ledgerEntity]

/-- Claim C2: with the ledger enabled, the admission policy of
capture_main holds.  (a) With no OS entity for the name in the store,
whatever the replace flag, the run creates exactly one entity, before
any protocol trigger.  (b) With an existing entity, replace = false and
no global delete requested, the whole session is skipped: the result is
exactly the skip log, the store is returned untouched, and nothing is
provisioned or triggered.  (c) With an existing entity, replace = true
and no global delete requested, the previous subgraph is deleted before
the fresh entity is created, the store the session works on is exactly
the fresh entity added to the purged store, and the session proceeds
(is not skipped). -/
theorem c2_admission_policy (vm : String) (dbg : Bool) (c : ConfObj)
    (neo : NeoObj) (s0 : Store) (pOk : Bool) (hookR : String → Bool)
    (intr : Option Nat) (aN : List GNode) (aE : List (Nat × Nat))
    (hneo : c.neo4j = some neo) (hen : neo.enabled = true) :
    (osMatch s0 vm = false →
      ((capture_main vm dbg
          (World.mk (CfgFile.valid (some c)) s0 pOk hookR intr aN aE)).trace.filter
            isCreate) = [Event.createdNode vm]
      ∧ ∃ pre post,
          (capture_main vm dbg
            (World.mk (CfgFile.valid (some c)) s0 pOk hookR intr aN aE)).trace
            = pre ++ post
          ∧ Event.createdNode vm ∈ pre
          ∧ (∀ e ∈ pre, isTrig e = false)
          ∧ (∀ e ∈ post, isCreate e = false))
    ∧ (neo.delete = false → neo.replace = false → osMatch s0 vm = true →
        capture_main vm dbg
          (World.mk (CfgFile.valid (some c)) s0 pOk hookR intr aN aE)
          = RunResult.mk [Event.logSkip] s0 Outcome.skipped)
    ∧ (neo.delete = false → neo.replace = true → osMatch s0 vm = true →
        (∃ tail,
          (capture_main vm dbg
            (World.mk (CfgFile.valid (some c)) s0 pOk hookR intr aN aE)).trace
            = Event.ranSubgraphDelete vm :: Event.createdNode vm :: tail)
        ∧ ledgerStore vm neo s0 = createEntity vm (deleteSubgraph s0 vm)
        ∧ (capture_main vm dbg
            (World.mk (CfgFile.valid (some c)) s0 pOk hookR intr aN aE)).outcome
            ≠ Outcome.skipped) := by
  have hneo2 : (normalizeConfig (some c) vm dbg).neo4j = some neo := by
    simp [normalizeConfig, hneo]
  refine ⟨?_, ?_, ?_⟩
  · intro hm
    have hm1 : osMatch (afterDelete neo s0) vm = false := by
      unfold afterDelete
      cases hd : neo.delete
      · simpa using hm
      · simp [osMatch]
    have hskip : (!neo.replace
        && osMatch (afterDelete neo
            (World.mk (CfgFile.valid (some c)) s0 pOk hookR intr aN aE).store) vm)
        = false := by
      simp only [World.store, hm1, Bool.and_false]
    have hadm : admitEvents vm (afterDelete neo s0) = [] := by
      simp [admitEvents, hm1]
    simp only [capture_main, hneo2, hen, if_true, hskip, Bool.false_eq_true,
      if_false, World.store, hadm, List.append_nil]
    constructor
    · rw [List.filter_append, List.filter_append]
      have h1 : (deleteEvents neo).filter isCreate = [] := by
        apply List.filter_eq_nil_iff.mpr
        intro e he
        simp [(deleteEvents_no_create neo e he).1]
      have h2 : (runSession vm
          (World.mk (CfgFile.valid (some c)) s0 pOk hookR intr aN aE)
          (ledgerStore vm neo s0) (some (ledgerEntity vm neo s0))
          (normalizeConfig (some c) vm dbg).desktop_ready_delay).trace.filter
            isCreate = [] := by
        apply List.filter_eq_nil_iff.mpr
        intro e he
        simp [runSession_no_create e he]
      rw [h1, h2]
      simp [isCreate]
    · refine ⟨deleteEvents neo ++ [Event.createdNode vm],
        (runSession vm (World.mk (CfgFile.valid (some c)) s0 pOk hookR intr aN aE)
          (ledgerStore vm neo s0) (some (ledgerEntity vm neo s0))
          (normalizeConfig (some c) vm dbg).desktop_ready_delay).trace,
        by simp, ?_, ?_, ?_⟩
      · simp
      · intro e he
        rcases List.mem_append.mp he with h | h
        · exact (deleteEvents_no_create neo e h).2.1
        · rw [List.mem_singleton] at h
          simp [h, isTrig]
      · intro e he
        exact runSession_no_create e he
  · intro hd hr hm
    have hone : afterDelete neo s0 = s0 := by simp [afterDelete, hd]
    have hskip : (!neo.replace
        && osMatch (afterDelete neo
            (World.mk (CfgFile.valid (some c)) s0 pOk hookR intr aN aE).store) vm)
        = true := by
      simp only [World.store, hone, hm, hr, Bool.not_false, Bool.true_and]
    simp only [capture_main, hneo2, hen, if_true, hskip]
    simp [deleteEvents, hd, hone]
  · intro hd hr hm
    have hone : afterDelete neo s0 = s0 := by simp [afterDelete, hd]
    have hskip : (!neo.replace
        && osMatch (afterDelete neo
            (World.mk (CfgFile.valid (some c)) s0 pOk hookR intr aN aE).store) vm)
        = false := by
      simp only [hr, Bool.not_true, Bool.false_and]
    simp only [capture_main, hneo2, hen, if_true, hskip, Bool.false_eq_true,
      if_false, World.store]
    refine ⟨⟨(runSession vm (World.mk (CfgFile.valid (some c)) s0 pOk hookR intr aN aE)
        (ledgerStore vm neo s0) (some (ledgerEntity vm neo s0))
        (normalizeConfig (some c) vm dbg).desktop_ready_delay).trace, ?_⟩, ?_, ?_⟩
    · simp [deleteEvents, hd, admitEvents, hone, hm]
    · simp [ledgerStore, admitStore, hone, hm]
    · exact runSession_outcome_ne.1

/-- Skip-scenario instances for the admission-policy witness. -/
def neoPlain : NeoObj := NeoObj.mk true false false

def cPlain : ConfObj := ConfObj.mk none (some neoPlain)

def sWin : Store := Store.mk [GNode.mk 0 true "win10"] []

theorem c2_admission_policy_wit :
    capture_main "win10" false
      (World.mk (CfgFile.valid (some cPlain)) sWin true (fun _ => false) none [] [])
      = RunResult.mk [Event.logSkip] sWin Outcome.skipped :=
  (c2_admission_policy "win10" false cPlain neoPlain sWin true (fun _ => false)
    none [] [] rfl rfl).2.1 rfl rfl (by decide)

/-! ## Claim theorems: rollback on interruption -/

/-- Claim C3: for every session that ends interrupted after the ledger
entity was created (ledger enabled, session not skipped, operator
interrupt caught), the final store contains no OS entity carrying the
VM name -- in particular not the created entity -- and no node of the
created entity's subgraph: every node the entity reaches in the store
the hooks worked on (the created store plus attached evidence) is
absent from the final store.  The trailing push cannot resurrect the
deleted entity because its MATCH finds nothing. -/
theorem c3_interrupt_rollback (vm : String) (dbg : Bool) (c : ConfObj)
    (neo : NeoObj) (s0 : Store) (pOk : Bool) (hookR : String → Bool)
    (intr : Option Nat) (aN : List GNode) (aE : List (Nat × Nat))
    (hneo : c.neo4j = some neo) (hen : neo.enabled = true)
    (hout : (capture_main vm dbg
        (World.mk (CfgFile.valid (some c)) s0 pOk hookR intr aN aE)).outcome
        = Outcome.interruptedDone)
    (hwf : StoreWF (attachHooks (ledgerStore vm neo s0) aN aE)) :
    (∀ n ∈ (capture_main vm dbg
        (World.mk (CfgFile.valid (some c)) s0 pOk hookR intr aN aE)).store.nodes,
      ¬ (n.isOS = true ∧ n.name = vm))
    ∧ (∀ n ∈ (attachHooks (ledgerStore vm neo s0) aN aE).nodes,
        Reaches (attachHooks (ledgerStore vm neo s0) aN aE)
          (ledgerEntity vm neo s0).id n.id →
        n ∉ (capture_main vm dbg
          (World.mk (CfgFile.valid (some c)) s0 pOk hookR intr aN aE)).store.nodes) := by
  have hneo2 : (normalizeConfig (some c) vm dbg).neo4j = some neo := by
    simp [normalizeConfig, hneo]
  by_cases hskip : (!neo.replace
      && osMatch (afterDelete neo
          (World.mk (CfgFile.valid (some c)) s0 pOk hookR intr aN aE).store) vm)
      = true
  · exfalso
    simp only [capture_main, hneo2, hen, if_true, hskip] at hout
    exact absurd hout (by decide)
  · rw [Bool.not_eq_true] at hskip
    simp only [capture_main, hneo2, hen, if_true, hskip, Bool.false_eq_true,
      if_false, World.store] at hout ⊢
    have hstore : (runSession vm
        (World.mk (CfgFile.valid (some c)) s0 pOk hookR intr aN aE)
        (ledgerStore vm neo s0) (some (ledgerEntity vm neo s0))
        (normalizeConfig (some c) vm dbg).desktop_ready_delay).store
        = pushStore (deleteSubgraph (attachHooks (ledgerStore vm neo s0) aN aE) vm)
            (some (ledgerEntity vm neo s0)) := runSession_store_intr hout
    rw [hstore]
    have hemem : ledgerEntity vm neo s0
        ∈ (attachHooks (ledgerStore vm neo s0) aN aE).nodes := by
      simp only [attachHooks]
      exact List.mem_append_left _ (ledgerEntity_mem vm neo s0)
    have hdoomE : doomed (attachHooks (ledgerStore vm neo s0) aN aE) vm
        (ledgerEntity vm neo s0).id = true :=
      doomed_self hemem rfl rfl
    have hany : ((deleteSubgraph (attachHooks (ledgerStore vm neo s0) aN aE)
        vm).nodes.any (fun n => n.id == (ledgerEntity vm neo s0).id)) = false := by
      by_contra hc
      rw [Bool.not_eq_false] at hc
      rcases List.any_eq_true.mp hc with ⟨m, hmm, hmi⟩
      have h1 := (mem_deleteSubgraph.mp hmm).2
      rw [beq_iff_eq.mp hmi, hdoomE] at h1
      exact Bool.noConfusion h1
    have hpush : pushStore (deleteSubgraph (attachHooks (ledgerStore vm neo s0)
          aN aE) vm) (some (ledgerEntity vm neo s0))
        = deleteSubgraph (attachHooks (ledgerStore vm neo s0) aN aE) vm := by
      simp [pushStore, hany]
    rw [hpush]
    constructor
    · rintro n hn ⟨hisos, hname⟩
      have h1 := mem_deleteSubgraph.mp hn
      have h2 := doomed_self h1.1 hisos hname
      rw [h1.2] at h2
      exact Bool.noConfusion h2
    · intro n hn hreach hcontra
      have h1 := mem_deleteSubgraph.mp hcontra
      have h2 := doomed_complete hwf hemem rfl
        (show (ledgerEntity vm neo s0).name = vm from rfl) hreach
      rw [h1.2] at h2
      exact Bool.noConfusion h2

/-- Interrupted-session instance for the rollback witness: ledger
enabled on an empty store, interrupt delivered at the first protocol
phase, one evidence node attached to the created entity. -/
def cIntr : ConfObj := ConfObj.mk (some 1) (some neoPlain)

def wC3 : World :=
  World.mk (CfgFile.valid (some cIntr)) (Store.mk [] []) true (fun _ => false)
    (some 0) [GNode.mk 1 false "ev"] [(0, 1)]

theorem c3_interrupt_rollback_wit :
    GNode.mk 1 false "ev" ∉ (capture_main "win10" false wC3).store.nodes :=
  (c3_interrupt_rollback "win10" false cIntr neoPlain (Store.mk [] []) true
    (fun _ => false) (some 0) [GNode.mk 1 false "ev"] [(0, 1)] rfl rfl
    (by decide) (by decide)).2
    (GNode.mk 1 false "ev") (by decide)
    (Reaches.tail Reaches.refl (by decide))

/-! ## Claim theorems: non-interrupt failure handling -/

/-- World with a provisioning failure and no ledger. -/
def wC6 : World :=
  World.mk (CfgFile.valid none) (Store.mk [] []) false (fun _ => false) none [] []

/-- Claim C6 counterexample: on a provisioning error the exception
propagates, but no scoped context release happens -- nothing was
entered, and the partially created temporary file is simply leaked --
so the release part of the claim fails for this failure kind. -/
theorem c6_claim_cex :
    (capture_main "win10" false wC6).outcome = Outcome.provisionRaised
    ∧ Event.contextReleased ∉ (capture_main "win10" false wC6).trace := by
  decide

/-- Claim C6 (amended): for every non-interrupt failure -- a hook
raising during a trigger or a provisioning error -- the exception
propagates out of capture_main; the scoped context release has run
exactly when provisioning succeeded (a hook exception), while on a
provisioning error no context was entered and nothing is released; and
the ledger entity, when one was created this session, is left in place
in the final store with no rollback attempted. -/
theorem c6_failure_propagation (vm : String) (dbg : Bool) (w : World)
    (hout : (capture_main vm dbg w).outcome = Outcome.provisionRaised ∨
            (capture_main vm dbg w).outcome = Outcome.hookErrorRaised) :
    (Event.contextReleased ∈ (capture_main vm dbg w).trace ↔ w.provisionOk = true)
    ∧ (Event.createdNode vm ∈ (capture_main vm dbg w).trace →
        ∃ n ∈ (capture_main vm dbg w).store.nodes,
          n.isOS = true ∧ n.name = vm) := by
  obtain ⟨file, s0, pOk, hookR, intr, aN, aE⟩ := w
  cases file with
  | missing => simp [capture_main] at hout
  | invalid => simp [capture_main] at hout
  | valid conf =>
      have hnoledger : ∀ d : Int,
          ((runSession vm (World.mk (CfgFile.valid conf) s0 pOk hookR intr aN aE)
              s0 none d).outcome = Outcome.provisionRaised ∨
           (runSession vm (World.mk (CfgFile.valid conf) s0 pOk hookR intr aN aE)
              s0 none d).outcome = Outcome.hookErrorRaised) →
          ((Event.contextReleased ∈ (runSession vm
              (World.mk (CfgFile.valid conf) s0 pOk hookR intr aN aE)
              s0 none d).trace ↔ pOk = true)
          ∧ (Event.createdNode vm ∈ (runSession vm
              (World.mk (CfgFile.valid conf) s0 pOk hookR intr aN aE)
              s0 none d).trace →
              ∃ n ∈ (runSession vm
                (World.mk (CfgFile.valid conf) s0 pOk hookR intr aN aE)
                s0 none d).store.nodes, n.isOS = true ∧ n.name = vm)) := by
        intro d _
        constructor
        · exact runSession_released_iff
        · intro hmem
          exfalso
          have hfalse := runSession_no_create (Event.createdNode vm) hmem
          simp [isCreate] at hfalse
      rcases hneo : (normalizeConfig conf vm dbg).neo4j with _ | neo
      · simp only [capture_main, hneo] at hout ⊢
        exact hnoledger _ hout
      · by_cases hen : neo.enabled
        · by_cases hskip : (!neo.replace
              && osMatch (afterDelete neo
                (World.mk (CfgFile.valid conf) s0 pOk hookR intr aN aE).store) vm)
              = true
          · exfalso
            simp only [capture_main, hneo, hen, if_true, hskip] at hout
            rcases hout with h | h <;> exact absurd h (by decide)
          · rw [Bool.not_eq_true] at hskip
            simp only [capture_main, hneo, hen, if_true, hskip, Bool.false_eq_true,
              if_false, World.store] at hout ⊢
            have hdev : Event.contextReleased ∉ deleteEvents neo := by
              intro hmem
              exact (deleteEvents_no_create neo _ hmem).2.2 rfl
            have hadm : Event.contextReleased
                ∉ admitEvents vm (afterDelete neo s0) := by
              intro hmem
              exact (admitEvents_shape vm (afterDelete neo s0) _ hmem).2.2 rfl
            constructor
            · simp [List.mem_append, hdev, hadm, runSession_released_iff]
            · intro _
              have hmem2 : ledgerEntity vm neo s0
                  ∈ (ledgerStore vm neo s0).nodes := ledgerEntity_mem vm neo s0
              rcases hout with h | h
              · have hst : (runSession vm
                    (World.mk (CfgFile.valid conf) s0 pOk hookR intr aN aE)
                    (ledgerStore vm neo s0) (some (ledgerEntity vm neo s0))
                    (normalizeConfig conf vm dbg).desktop_ready_delay).store
                    = ledgerStore vm neo s0 := runSession_store_prov h
                rw [hst]
                exact ⟨ledgerEntity vm neo s0, hmem2, rfl, rfl⟩
              · have hst : (runSession vm
                    (World.mk (CfgFile.valid conf) s0 pOk hookR intr aN aE)
                    (ledgerStore vm neo s0) (some (ledgerEntity vm neo s0))
                    (normalizeConfig conf vm dbg).desktop_ready_delay).store
                    = attachHooks (ledgerStore vm neo s0) aN aE :=
                  runSession_store_hook h
                rw [hst]
                refine ⟨ledgerEntity vm neo s0, ?_, rfl, rfl⟩
                simp only [attachHooks]
                exact List.mem_append_left _ hmem2
        · simp only [capture_main, hneo, hen, Bool.false_eq_true, if_false] at hout ⊢
          exact hnoledger _ hout

/-- Hook-failure instance for the witness: ledger enabled on an empty
store, delay 0, a hook raises at the offline trigger. -/
def wC6b : World :=
  World.mk (CfgFile.valid (some (ConfObj.mk (some 0) (some neoPlain))))
    (Store.mk [] []) true (fun n => n == "offline") none [] []

theorem c6_failure_propagation_wit :
    Event.contextReleased ∈ (capture_main "win10" false wC6b).trace :=
  ((c6_failure_propagation "win10" false wC6b (Or.inr (by decide))).1).mpr rfl
